import Mathlib

/-!
Shallow embedding of the WriteWise analysis core
(`writewise/core/grammar_checker.py`): data model, the four style
detectors, the analysis aggregator and the quality scorer, together with
theorems settling the specification claims.

Modelling conventions:
* Text is a `List Char`; offsets are positions into that list.
* Python floats are modelled by `ℚ` (all scoring constants are exact
  decimals, so the rational model coincides with the float computation on
  the scenarios considered here).
* The external capabilities (grammar engine, sentence tokenizer,
  readability library) are parameters of `analyze`, mirroring the spec's
  "capability" contracts: a list of raw grammar matches, a list of
  sentences, and a `ReadabilityMetrics` record.
* Python's `\w` and `\s` character classes are modelled by their ASCII
  behaviour (`isAlphanum`/underscore resp. the six ASCII whitespace
  characters), which is exact on all inputs appearing in the claims.
-/

/-- Python `\w` word character (ASCII fragment). -/
def isWordChar (c : Char) : Bool := c.isAlphanum || c == '_'

/-- Python `\s` whitespace character (ASCII fragment). -/
def isPySpace (c : Char) : Bool :=
  c == ' ' || c == '\t' || c == '\n' || c == '\r' ||
  c == Char.ofNat 11 || c == Char.ofNat 12

/-- ASCII lower-casing of one character, as Python `re.IGNORECASE` folds case. -/
def lowerC (c : Char) : Char := c.toLower

/-- Lower-case a whole character list (Python `str.lower` on ASCII). -/
def lowerL (l : List Char) : List Char := l.map lowerC

/-- Python slice `text[a:b]` for `0 ≤ a ≤ b` (clamped to the ends). -/
def pySlice (l : List Char) (a b : Nat) : List Char := (l.take b).drop a

/-- One step of Python `str.split()` (split on whitespace runs, dropping
empty tokens): accumulator holds the current token reversed. -/
def splitWsAux : List Char → List Char → List (List Char)
  | [], acc => if acc.isEmpty then [] else [acc.reverse]
  | c :: rest, acc =>
    if isPySpace c then
      if acc.isEmpty then splitWsAux rest [] else acc.reverse :: splitWsAux rest []
    else splitWsAux rest (c :: acc)

/-- Python `str.split()` with no separator argument. -/
def pySplitWs (l : List Char) : List (List Char) := splitWsAux l []

/-- A raw match returned by the external grammar capability
(`language_tool_python` match object fragment used by the core). -/
structure RawMatch where
  message : String
  ruleId : String
  category : String
  offset : Nat
  errorLength : Nat
  replacements : List String
deriving DecidableEq, Repr

/-- `GrammarIssue` dataclass. -/
structure GrammarIssue where
  message : String
  rule_id : String
  category : String
  offset : Nat
  length : Nat
  context : List Char
  suggestions : List String
  severity : String
deriving DecidableEq, Repr

/-- `StyleSuggestion` dataclass.  `offset` is an `Int` because the
long-sentence detector obtains it from Python `str.find`, which can
return `-1`. -/
structure StyleSuggestion where
  message : String
  category : String
  offset : Int
  length : Nat
  original : List Char
  suggestion : String
deriving DecidableEq, Repr

/-- `ReadabilityMetrics` dataclass (floats modelled by `ℚ`). -/
structure ReadabilityMetrics where
  flesch_reading_ease : ℚ
  flesch_kincaid_grade : ℚ
  gunning_fog : ℚ
  smog_index : ℚ
  automated_readability_index : ℚ
  coleman_liau_index : ℚ
  difficult_words : Int
  reading_time_minutes : ℚ
deriving DecidableEq, Repr

/-- `AnalysisResult` dataclass. -/
structure AnalysisResult where
  original_text : List Char
  grammar_issues : List GrammarIssue
  style_suggestions : List StyleSuggestion
  readability : ReadabilityMetrics
  word_count : Nat
  sentence_count : Nat
  character_count : Nat
  score : ℚ
deriving DecidableEq, Repr

/-- `GrammarChecker._calculate_score`: start at 100, subtract 2 per
error-severity grammar issue and 0.5 per other issue, subtract 0.3 per
style suggestion, apply the readability adjustment, clamp to [0, 100]. -/
def calculate_score (grammar_issues : List GrammarIssue)
    (style_suggestions : List StyleSuggestion)
    (readability : ReadabilityMetrics) : ℚ :=
  let s1 : ℚ := grammar_issues.foldl
    (fun s issue => if issue.severity = "error" then s - 2 else s - 1/2) 100
  let s2 : ℚ := s1 - (style_suggestions.length : ℚ) * (3/10)
  let s3 : ℚ :=
    if readability.flesch_reading_ease < 30 then s2 - 5
    else if readability.flesch_reading_ease > 90 then s2 - 2
    else s2
  max 0 (min 100 s3)

/-- Number of error-severity grammar issues. -/
def errCount : List GrammarIssue → Nat
  | [] => 0
  | i :: t => (if i.severity = "error" then 1 else 0) + errCount t

/-- Number of non-error grammar issues. -/
def warnCount : List GrammarIssue → Nat
  | [] => 0
  | i :: t => (if i.severity = "error" then 0 else 1) + warnCount t

/-- The readability deduction of the scorer, in closed form. -/
def readabilityAdj (readability : ReadabilityMetrics) : ℚ :=
  if readability.flesch_reading_ease < 30 then 5
  else if readability.flesch_reading_ease > 90 then 2
  else 0

/-- Closed form of the scorer before clamping, following the spec text:
100 minus 2 per error finding, 0.5 per other grammar finding, 0.3 per
style finding, minus the readability adjustment. -/
def scoreSpecRaw (grammar_issues : List GrammarIssue)
    (style_suggestions : List StyleSuggestion)
    (readability : ReadabilityMetrics) : ℚ :=
  100 - 2 * (errCount grammar_issues : ℚ) - (1/2) * (warnCount grammar_issues : ℚ)
    - (3/10) * (style_suggestions.length : ℚ) - readabilityAdj readability

lemma score_foldl_closed (l : List GrammarIssue) (a : ℚ) :
    l.foldl (fun s issue => if issue.severity = "error" then s - 2 else s - 1/2) a
      = a - 2 * (errCount l : ℚ) - (1/2) * (warnCount l : ℚ) := by
  induction l generalizing a with
  | nil => simp [errCount, warnCount]
  | cons i t ih =>
    by_cases h : i.severity = "error" <;>
      simp only [List.foldl_cons, h, if_true, if_false, ih, errCount, warnCount] <;>
      push_cast <;> ring

/-- The scorer equals the clamp of its closed form. -/
lemma calculate_score_eq (gi : List GrammarIssue) (ss : List StyleSuggestion)
    (rm : ReadabilityMetrics) :
    calculate_score gi ss rm = max 0 (min 100 (scoreSpecRaw gi ss rm)) := by
  unfold calculate_score scoreSpecRaw readabilityAdj
  rw [score_foldl_closed]
  by_cases h1 : rm.flesch_reading_ease < 30
  · simp only [h1, if_pos]
    ring_nf
  · by_cases h2 : rm.flesch_reading_ease > 90 <;>
      simp only [h1, h2, if_pos, if_neg, not_false_iff, if_false] <;> ring_nf

/-- The pre-clamp value never exceeds 100. -/
lemma scoreSpecRaw_le_100 (gi : List GrammarIssue) (ss : List StyleSuggestion)
    (rm : ReadabilityMetrics) : scoreSpecRaw gi ss rm ≤ 100 := by
  unfold scoreSpecRaw readabilityAdj
  have h1 : (0 : ℚ) ≤ (errCount gi : ℚ) := by positivity
  have h2 : (0 : ℚ) ≤ (warnCount gi : ℚ) := by positivity
  have h3 : (0 : ℚ) ≤ (ss.length : ℚ) := by positivity
  by_cases hr1 : rm.flesch_reading_ease < 30
  · simp only [hr1, if_pos]; linarith
  · by_cases hr2 : rm.flesch_reading_ease > 90 <;>
      simp only [hr1, hr2, if_pos, if_neg, not_false_iff, if_false] <;> linarith

/-- Case-sensitive list prefix test. -/
def prefixEq : List Char → List Char → Bool
  | [], _ => true
  | _ :: _, [] => false
  | a :: as, b :: bs => (a == b) && prefixEq as bs

/-- Case-insensitive prefix test: does `cs` start with the (lower-case)
pattern `pat`, folding the case of `cs` (Python `re.IGNORECASE`)? -/
def prefixCI : List Char → List Char → Bool
  | [], _ => true
  | _ :: _, [] => false
  | p :: ps, c :: cs => (lowerC c == p) && prefixCI ps cs

/-- Does `l` end with `sfx`? -/
def hasSuffix (l sfx : List Char) : Bool :=
  decide (sfx.length ≤ l.length) && prefixEq sfx (l.drop (l.length - sfx.length))

/-- Word boundary `\b` before a word character: satisfied at the string
start or after a non-word character. -/
def prevNonWord : Option Char → Bool
  | none => true
  | some c => !isWordChar c

/-- `re.finditer` driver: at each position try `tryM` (which receives the
previous character, for `\b`, and the remaining text); on a match of
length `len` emit `(pos, len, payload)` and resume after the match,
otherwise advance one character.  `fuel` bounds the recursion. -/
def scanAux {α : Type} (tryM : Option Char → List Char → Option (Nat × α)) :
    Nat → Option Char → Nat → List Char → List (Nat × Nat × α)
  | 0, _, _, _ => []
  | _ + 1, _, _, [] => []
  | fuel + 1, prev, pos, c :: rest =>
    match tryM prev (c :: rest) with
    | some (len, a) =>
      if len = 0 then (pos, len, a) :: scanAux tryM fuel (some c) (pos + 1) rest
      else (pos, len, a) :: scanAux tryM fuel ((c :: rest)[len - 1]?) (pos + len) ((c :: rest).drop len)
    | none => scanAux tryM fuel (some c) (pos + 1) rest

/-- All matches of a pattern over `text`, with positions. -/
def scanText {α : Type} (tryM : Option Char → List Char → Option (Nat × α))
    (text : List Char) : List (Nat × Nat × α) :=
  scanAux tryM (text.length + 1) none 0 text

/-- The be-verb alternation of the passive-voice patterns. -/
def beVerbs : List (List Char) :=
  ["am".data, "is".data, "are".data, "was".data, "were".data,
   "be".data, "been".data, "being".data]

/-- One passive-voice pattern `\b(am|is|...|being)\s+\w+SFX\b` (with
`SFX` = "ed" or "en"), `re.IGNORECASE`: a be-verb at a word boundary,
one or more whitespace characters, then a word whose maximal `\w` run is
at least 3 characters and ends (case-folded) in `sfx`. -/
def pvTry (sfx : List Char) (prev : Option Char) (cs : List Char) : Option (Nat × Unit) :=
  if prevNonWord prev then
    beVerbs.findSome? (fun v =>
      if prefixCI v cs then
        let rest1 := cs.drop v.length
        let sp := rest1.takeWhile isPySpace
        if sp.isEmpty then none
        else
          let rest2 := rest1.drop sp.length
          let w := rest2.takeWhile isWordChar
          if decide (3 ≤ w.length) && hasSuffix (lowerL w) sfx then
            some (v.length + sp.length + w.length, ())
          else none
      else none)
  else none

/-- Build a passive-voice `StyleSuggestion` from a raw match. -/
def mkPV (text : List Char) (m : Nat × Nat × Unit) : StyleSuggestion :=
  { message := "Consider using active voice for more direct writing"
    category := "passive_voice"
    offset := (m.1 : Int)
    length := m.2.1
    original := pySlice text m.1 (m.1 + m.2.1)
    suggestion := "Consider rewriting in active voice" }

/-- `GrammarChecker._check_passive_voice`: run the "ed" pattern, then the
"en" pattern, concatenating the findings. -/
def check_passive_voice (text : List Char) : List StyleSuggestion :=
  (scanText (pvTry "ed".data) text).map (mkPV text)
    ++ (scanText (pvTry "en".data) text).map (mkPV text)

/-- The wordy-phrase table, in the source's (insertion) order. -/
def wordy_phrases : List (List Char × String) :=
  [("at this point in time".data, "now"),
   ("due to the fact that".data, "because"),
   ("in order to".data, "to"),
   ("for the purpose of".data, "to"),
   ("in the event that".data, "if"),
   ("with regard to".data, "about"),
   ("in spite of the fact that".data, "although"),
   ("a number of".data, "many"),
   ("prior to".data, "before")]

/-- One wordy-phrase pattern `\bPHRASE\b`, `re.IGNORECASE`: the literal
phrase between word boundaries. -/
def wordyTry (phrase : List Char) (prev : Option Char) (cs : List Char) : Option (Nat × Unit) :=
  if prevNonWord prev && prefixCI phrase cs then
    match cs.drop phrase.length with
    | [] => some (phrase.length, ())
    | c :: _ => if isWordChar c then none else some (phrase.length, ())
  else none

/-- Build a wordiness `StyleSuggestion` from a raw match. -/
def mkWordy (text : List Char) (replacement : String) (m : Nat × Nat × Unit) : StyleSuggestion :=
  { message := "Consider simplifying to \x27" ++ replacement ++ "\x27"
    category := "wordiness"
    offset := (m.1 : Int)
    length := m.2.1
    original := pySlice text m.1 (m.1 + m.2.1)
    suggestion := replacement }

/-- `GrammarChecker._check_wordy_phrases`: for each table entry run its
pattern over the whole text, concatenating findings in table order. -/
def check_wordy_phrases (text : List Char) : List StyleSuggestion :=
  (wordy_phrases.map
    (fun pr => (scanText (wordyTry pr.1) text).map (mkWordy text pr.2))).flatten

/-- The repeated-word pattern `\b(\w+)\s+\1\b`, `re.IGNORECASE`: a
maximal word run, whitespace, then the same word again (case-folded) at a
word boundary.  The payload is the first occurrence (capture group 1). -/
def repTry (prev : Option Char) (cs : List Char) : Option (Nat × List Char) :=
  if prevNonWord prev then
    let w := cs.takeWhile isWordChar
    if w.isEmpty then none
    else
      let rest1 := cs.drop w.length
      let sp := rest1.takeWhile isPySpace
      if sp.isEmpty then none
      else
        let rest2 := rest1.drop sp.length
        if lowerL (rest2.take w.length) == lowerL w then
          match rest2.drop w.length with
          | [] => some (w.length + sp.length + w.length, w)
          | c :: _ =>
            if isWordChar c then none else some (w.length + sp.length + w.length, w)
        else none
  else none

/-- Intentional doublings skipped by the repeated-word detector. -/
def repetition_allowlist : List (List Char) :=
  ["very".data, "far".data, "long".data, "many".data]

/-- Build a repetition `StyleSuggestion` from a raw match. -/
def mkRep (text : List Char) (m : Nat × Nat × List Char) : StyleSuggestion :=
  { message := "Possible unintentional word repetition: \x27"
      ++ (pySlice text m.1 (m.1 + m.2.1)).asString ++ "\x27"
    category := "repetition"
    offset := (m.1 : Int)
    length := m.2.1
    original := pySlice text m.1 (m.1 + m.2.1)
    suggestion := m.2.2.asString }

/-- `GrammarChecker._check_repeated_words`: every repeated-word match
whose (lower-cased) word is not allow-listed becomes a finding. -/
def check_repeated_words (text : List Char) : List StyleSuggestion :=
  (scanText repTry text).filterMap (fun m =>
    if lowerL m.2.2 ∈ repetition_allowlist then none else some (mkRep text m))

/-- Is `needle` present at position `i` of `text` (Python-slice sense)? -/
def occursAtB (text : List Char) (i : Nat) (needle : List Char) : Bool :=
  decide (i + needle.length ≤ text.length) && prefixEq needle (text.drop i)

/-- Linear search for `Python str.find`: try positions `i, i+1, ...`
while fuel lasts. -/
def findAux (text needle : List Char) : Nat → Nat → Option Nat
  | 0, _ => none
  | fuel + 1, i => if occursAtB text i needle then some i else findAux text needle fuel (i + 1)

/-- Python `text.find(needle, start)`: index of the first occurrence at
or after `start`, `-1` if none. -/
def pyFind (text needle : List Char) (start : Nat) : Int :=
  match findAux text needle (text.length + 1 - start) start with
  | some i => (i : Int)
  | none => -1

/-- Build a long-sentence `StyleSuggestion` for sentence `s` with the
running cursor at `cur`. -/
def mkLongSentence (text : List Char) (cur : Nat) (s : List Char) : StyleSuggestion :=
  { message := "This sentence has " ++ toString (pySplitWs s).length
      ++ " words. Consider breaking it into shorter sentences for better readability."
    category := "sentence_length"
    offset := pyFind text s cur
    length := s.length
    original := if 50 < s.length then s.take 50 ++ "...".data else s
    suggestion := "Break into shorter sentences" }

/-- Loop of `GrammarChecker._check_sentence_length`: the cursor advances
by each processed sentence's length; sentences of more than 30
whitespace-delimited words are flagged, their offset re-located with
`text.find(sentence, cursor)`. -/
def sentLenAux (text : List Char) : Nat → List (List Char) → List StyleSuggestion
  | _, [] => []
  | cur, s :: rest =>
    if 30 < (pySplitWs s).length then
      mkLongSentence text cur s :: sentLenAux text (cur + s.length) rest
    else sentLenAux text (cur + s.length) rest

/-- `GrammarChecker._check_sentence_length` (the sentence list comes from
the external tokenization capability). -/
def check_sentence_length (text : List Char) (sentences : List (List Char)) :
    List StyleSuggestion :=
  sentLenAux text 0 sentences

/-- `GrammarChecker._analyze_style`: concatenate the four detectors'
findings in the fixed order passive → wordy → length → repetition. -/
def analyze_style (text : List Char) (sentences : List (List Char)) :
    List StyleSuggestion :=
  check_passive_voice text ++ check_wordy_phrases text
    ++ check_sentence_length text sentences ++ check_repeated_words text

/-- The per-match body of `GrammarChecker._check_grammar`. -/
def mkGrammarIssue (text : List Char) (m : RawMatch) : GrammarIssue :=
  { message := m.message
    rule_id := m.ruleId
    category := m.category
    offset := m.offset
    length := m.errorLength
    context := pySlice text (m.offset - 20) (min (m.offset + m.errorLength + 20) text.length)
    suggestions := m.replacements.take 3
    severity := if m.category == "GRAMMAR" || m.category == "TYPOS" then "error" else "warning" }

/-- `GrammarChecker._check_grammar`, over the raw matches supplied by the
grammar capability. -/
def check_grammar (text : List Char) (ms : List RawMatch) : List GrammarIssue :=
  ms.map (mkGrammarIssue text)

/-- `GrammarChecker.analyze`, with the three external capabilities'
responses (`ms`, `sentences`, `readability`) as parameters. -/
def analyze (text : List Char) (ms : List RawMatch)
    (sentences : List (List Char)) (readability : ReadabilityMetrics) : AnalysisResult :=
  let grammar_issues := check_grammar text ms
  let style_suggestions := analyze_style text sentences
  { original_text := text
    grammar_issues := grammar_issues
    style_suggestions := style_suggestions
    readability := readability
    word_count := (pySplitWs text).length
    sentence_count := sentences.length
    character_count := text.length
    score := calculate_score grammar_issues style_suggestions readability }

/-- A sample error-severity grammar finding. -/
def sampleError : GrammarIssue :=
  { message := "", rule_id := "", category := "GRAMMAR", offset := 0, length := 0,
    context := [], suggestions := [], severity := "error" }

/-- A sample style finding. -/
def sampleStyle : StyleSuggestion :=
  { message := "", category := "passive_voice", offset := 0, length := 0,
    original := [], suggestion := "" }

/-- Sample readability metrics with Flesch Reading Ease 65. -/
def sampleMetrics65 : ReadabilityMetrics :=
  { flesch_reading_ease := 65, flesch_kincaid_grade := 0, gunning_fog := 0,
    smog_index := 0, automated_readability_index := 0, coleman_liau_index := 0,
    difficult_words := 0, reading_time_minutes := 0 }

/-- C1.  The quality scorer starts at 100 and subtracts 2 per
error-severity grammar finding, 0.5 per other grammar finding, 0.3 per
style finding and the readability adjustment (5 below FRE 30, 2 above
FRE 90, 0 otherwise), then clamps to [0, 100]; in particular an analysis
with one error-severity grammar finding, two style findings and Flesch
Reading Ease 65 scores 97.4. -/
theorem claim_C1_score_formula :
    (∀ (gi : List GrammarIssue) (ss : List StyleSuggestion) (rm : ReadabilityMetrics),
      calculate_score gi ss rm = max 0 (min 100 (scoreSpecRaw gi ss rm)))
    ∧ calculate_score [sampleError] [sampleStyle, sampleStyle] sampleMetrics65 = 97.4 := by
  refine ⟨calculate_score_eq, ?_⟩
  norm_num [calculate_score, sampleError, sampleStyle, sampleMetrics65]

/-- C2.  For every input text and every set of capability responses, the
`score` of the `AnalysisResult` returned by `analyze` lies in [0, 100]. -/
theorem claim_C2_score_in_range (text : List Char) (ms : List RawMatch)
    (sents : List (List Char)) (rm : ReadabilityMetrics) :
    0 ≤ (analyze text ms sents rm).score ∧ (analyze text ms sents rm).score ≤ 100 := by
  have h : (analyze text ms sents rm).score
      = calculate_score (check_grammar text ms) (analyze_style text sents) rm := rfl
  rw [h, calculate_score_eq]
  exact ⟨le_max_left _ _, max_le (by norm_num) (min_le_left _ _)⟩

lemma errCount_append (l1 l2 : List GrammarIssue) :
    errCount (l1 ++ l2) = errCount l1 + errCount l2 := by
  induction l1 with
  | nil => simp [errCount]
  | cons i t ih => simp [errCount, ih]; omega

lemma warnCount_append (l1 l2 : List GrammarIssue) :
    warnCount (l1 ++ l2) = warnCount l1 + warnCount l2 := by
  induction l1 with
  | nil => simp [warnCount]
  | cons i t ih => simp [warnCount, ih]; omega

/-- Appending one error-severity finding lowers the pre-clamp value by 2. -/
lemma scoreSpecRaw_append_error (gi : List GrammarIssue) (ss : List StyleSuggestion)
    (rm : ReadabilityMetrics) (e : GrammarIssue) (he : e.severity = "error") :
    scoreSpecRaw (gi ++ [e]) ss rm = scoreSpecRaw gi ss rm - 2 := by
  unfold scoreSpecRaw
  rw [errCount_append, warnCount_append]
  simp [errCount, warnCount, he]
  ring

/-- C4.  Holding style findings and readability fixed, adding one more
error-severity grammar finding lowers the score by exactly 2 (and hence
strictly), as long as the starting score is at least 2 (i.e. the result
is not clamped at 0). -/
theorem claim_C4_error_penalty (gi : List GrammarIssue) (ss : List StyleSuggestion)
    (rm : ReadabilityMetrics) (e : GrammarIssue) (he : e.severity = "error")
    (h2 : 2 ≤ calculate_score gi ss rm) :
    calculate_score (gi ++ [e]) ss rm = calculate_score gi ss rm - 2
      ∧ calculate_score (gi ++ [e]) ss rm < calculate_score gi ss rm := by
  have hr := scoreSpecRaw_le_100 gi ss rm
  have hr' := scoreSpecRaw_le_100 (gi ++ [e]) ss rm
  have hs : calculate_score gi ss rm = max 0 (scoreSpecRaw gi ss rm) := by
    rw [calculate_score_eq, min_eq_right hr]
  have hs' : calculate_score (gi ++ [e]) ss rm = max 0 (scoreSpecRaw (gi ++ [e]) ss rm) := by
    rw [calculate_score_eq, min_eq_right hr']
  rw [hs, hs', scoreSpecRaw_append_error gi ss rm e he]
  rw [hs] at h2
  have hpos : 0 < scoreSpecRaw gi ss rm := by
    rcases le_or_lt (scoreSpecRaw gi ss rm) 0 with hle | hlt
    · rw [max_eq_left hle] at h2; linarith
    · exact hlt
  rw [max_eq_right hpos.le] at h2 ⊢
  have h0 : 0 ≤ scoreSpecRaw gi ss rm - 2 := by linarith
  rw [max_eq_right h0]
  constructor
  · rfl
  · linarith

/-- Witness for C4: with no findings and FRE 65 the score is 100 ≥ 2, and
appending one error-severity finding yields 98 = 100 - 2 < 100. -/
theorem claim_C4_error_penalty_witness :
    sampleError.severity = "error" ∧ 2 ≤ calculate_score [] [] sampleMetrics65
      ∧ (calculate_score ([] ++ [sampleError]) [] sampleMetrics65
            = calculate_score [] [] sampleMetrics65 - 2
          ∧ calculate_score ([] ++ [sampleError]) [] sampleMetrics65
            < calculate_score [] [] sampleMetrics65) :=
  ⟨rfl, by norm_num [calculate_score, sampleMetrics65],
    claim_C4_error_penalty [] [] sampleMetrics65 sampleError rfl
      (by norm_num [calculate_score, sampleMetrics65])⟩

/-- C3 (counter-evidence).  On the spec's example "The ball was thrown by
the boy." the passive-voice detector finds nothing: "thrown" ends in
"wn", not in "ed" or "en", so neither pattern matches — although the
repository's own test `test_passive_voice_detection` asserts at least one
`passive_voice` finding on exactly this text. -/
theorem claim_C3_passive_example_empty :
    check_passive_voice "The ball was thrown by the boy.".data = [] := by decide

/-- C5.  Each raw grammar match is mapped to a `GrammarIssue` whose
severity is "error" exactly for the GRAMMAR and TYPOS categories, whose
context is the input text sliced over `[offset-20, offset+length+20]`
clipped to the text bounds, and whose suggestions are the first three
replacement strings. -/
theorem claim_C5_grammar_issue_fields (text : List Char) (ms : List RawMatch)
    (sents : List (List Char)) (rm : ReadabilityMetrics) :
    (analyze text ms sents rm).grammar_issues = ms.map (fun m =>
      { message := m.message
        rule_id := m.ruleId
        category := m.category
        offset := m.offset
        length := m.errorLength
        context := pySlice text (m.offset - 20) (min (m.offset + m.errorLength + 20) text.length)
        suggestions := m.replacements.take 3
        severity := if m.category = "GRAMMAR" ∨ m.category = "TYPOS"
          then "error" else "warning" }) := by
  show check_grammar text ms = _
  unfold check_grammar
  refine List.map_congr_left (fun m _ => ?_)
  unfold mkGrammarIssue
  simp only [GrammarIssue.mk.injEq, true_and, and_true]
  by_cases h1 : m.category = "GRAMMAR" <;> by_cases h2 : m.category = "TYPOS" <;>
    simp [h1, h2]

/-- C7.  The style findings of `analyze` are exactly the concatenation of
the four detectors' outputs in the fixed order passive voice → wordy
phrases → long sentences → repeated words. -/
theorem claim_C7_style_concat_order (text : List Char) (ms : List RawMatch)
    (sents : List (List Char)) (rm : ReadabilityMetrics) :
    (analyze text ms sents rm).style_suggestions
      = check_passive_voice text ++ check_wordy_phrases text
        ++ check_sentence_length text sents ++ check_repeated_words text := rfl

lemma filterMap_if_not {α β : Type} (p : α → Prop) [DecidablePred p] (g : α → β)
    (l : List α) :
    l.filterMap (fun a => if p a then none else some (g a))
      = (l.filter (fun a => decide ¬ p a)).map g := by
  induction l with
  | nil => rfl
  | cons a t ih =>
    by_cases h : p a <;> simp [List.filterMap_cons, List.filter_cons, h, ih]

/-- C8.  The repeated-word detector emits a `repetition` finding for each
back-reference match whose (lower-cased) word is not allow-listed;
"The the cat sat on the mat." yields a `repetition` finding and
"very very tired" yields none. -/
theorem claim_C8_repeated_words :
    (∀ text : List Char, check_repeated_words text
        = ((scanText repTry text).filter
            (fun m => decide (lowerL m.2.2 ∉ repetition_allowlist))).map (mkRep text))
      ∧ (∃ s ∈ check_repeated_words "The the cat sat on the mat.".data,
          s.category = "repetition")
      ∧ check_repeated_words "very very tired".data = [] := by
  refine ⟨fun text => ?_, by decide, by decide⟩
  unfold check_repeated_words
  exact filterMap_if_not (fun m => lowerL m.2.2 ∈ repetition_allowlist) (mkRep text) _

/-- C9.  With the capabilities returning empty results on the empty
string, `analyze ""` reports zero words, zero sentences and no grammar or
style findings (the detectors, being total functions, cannot raise). -/
theorem claim_C9_empty_text (rm : ReadabilityMetrics) :
    (analyze [] [] [] rm).word_count = 0
      ∧ (analyze [] [] [] rm).sentence_count = 0
      ∧ (analyze [] [] [] rm).grammar_issues = []
      ∧ (analyze [] [] [] rm).style_suggestions = [] :=
  ⟨rfl, rfl, rfl, rfl⟩

lemma prefixCI_length : ∀ (p l : List Char), prefixCI p l = true → p.length ≤ l.length := by
  intro p
  induction p with
  | nil => intro l _; simp
  | cons a as ih =>
    intro l h
    cases l with
    | nil => simp [prefixCI] at h
    | cons b bs =>
      simp only [prefixCI, Bool.and_eq_true] at h
      simpa using Nat.succ_le_succ (ih bs h.2)

lemma lowerL_length (l : List Char) : (lowerL l).length = l.length := by
  simp [lowerL]

/-- A passive-voice match never runs past the end of the remaining text. -/
lemma pvTry_len_le (sfx : List Char) (prev : Option Char) (cs : List Char)
    (len : Nat) (u : Unit) (h : pvTry sfx prev cs = some (len, u)) : len ≤ cs.length := by
  unfold pvTry at h
  split at h
  case isFalse => simp at h
  case isTrue =>
    obtain ⟨v, _, hf⟩ := List.exists_of_findSome?_eq_some h
    split at hf
    case isFalse => simp at hf
    case isTrue hpre =>
      dsimp only at hf
      split at hf
      case isTrue => simp at hf
      case isFalse =>
        split at hf
        case isFalse => simp at hf
        case isTrue =>
          have hA := (List.takeWhile_prefix (l := cs.drop v.length) isPySpace).length_le
          have hB := (List.takeWhile_prefix
            (l := (cs.drop v.length).drop
              ((cs.drop v.length).takeWhile isPySpace).length) isWordChar).length_le
          have hC : (cs.drop v.length).length = cs.length - v.length :=
            List.length_drop v.length cs
          have hD : ((cs.drop v.length).drop
              ((cs.drop v.length).takeWhile isPySpace).length).length
              = (cs.drop v.length).length - ((cs.drop v.length).takeWhile isPySpace).length :=
            List.length_drop _ _
          have hE : v.length ≤ cs.length := prefixCI_length v cs hpre
          injection hf with hf
          injection hf with hf _
          omega

/-- A wordy-phrase match never runs past the end of the remaining text. -/
lemma wordyTry_len_le (phrase : List Char) (prev : Option Char) (cs : List Char)
    (len : Nat) (u : Unit) (h : wordyTry phrase prev cs = some (len, u)) :
    len ≤ cs.length := by
  unfold wordyTry at h
  split at h
  case isFalse => simp at h
  case isTrue hc =>
    have hpre : prefixCI phrase cs = true := by
      simp only [Bool.and_eq_true] at hc
      exact hc.2
    have hE : phrase.length ≤ cs.length := prefixCI_length phrase cs hpre
    split at h
    · injection h with h
      injection h with h _
      omega
    · split at h
      case isTrue => simp at h
      case isFalse =>
        injection h with h
        injection h with h _
        omega

/-- A repeated-word match never runs past the end of the remaining text. -/
lemma repTry_len_le (prev : Option Char) (cs : List Char)
    (len : Nat) (w : List Char) (h : repTry prev cs = some (len, w)) : len ≤ cs.length := by
  unfold repTry at h
  split at h
  case isFalse => simp at h
  case isTrue =>
    dsimp only at h
    split at h
    case isTrue => simp at h
    case isFalse =>
      split at h
      case isTrue => simp at h
      case isFalse =>
        split at h
        case isFalse => simp at h
        case isTrue hrep =>
          have hA := (List.takeWhile_prefix (l := cs) isWordChar).length_le
          have hB := (List.takeWhile_prefix
            (l := cs.drop (cs.takeWhile isWordChar).length) isPySpace).length_le
          have hC : (cs.drop (cs.takeWhile isWordChar).length).length
              = cs.length - (cs.takeWhile isWordChar).length := List.length_drop _ _
          have hD : ((cs.drop (cs.takeWhile isWordChar).length).drop
              ((cs.drop (cs.takeWhile isWordChar).length).takeWhile isPySpace).length).length
              = (cs.drop (cs.takeWhile isWordChar).length).length
                - ((cs.drop (cs.takeWhile isWordChar).length).takeWhile isPySpace).length :=
            List.length_drop _ _
          have hrep' := eq_of_beq hrep
          have hlen := congrArg List.length hrep'
          rw [lowerL_length, lowerL_length, List.length_take] at hlen
          -- the second occurrence fits into the remaining text
          have hmin : (cs.takeWhile isWordChar).length
              ≤ ((cs.drop (cs.takeWhile isWordChar).length).drop
                  ((cs.drop (cs.takeWhile isWordChar).length).takeWhile isPySpace).length).length := by
            omega
          split at h
          · injection h with h
            injection h with h _
            omega
          · split at h
            case isTrue => simp at h
            case isFalse =>
              injection h with h
              injection h with h _
              omega

/-- Every match reported by the scan driver lies inside the scanned
suffix: its position is at least `pos` and its span ends within
`pos + cs.length`. -/
lemma scanAux_spans {α : Type} (tryM : Option Char → List Char → Option (Nat × α))
    (hb : ∀ prev cs len a, tryM prev cs = some (len, a) → len ≤ cs.length) :
    ∀ (fuel : Nat) (prev : Option Char) (pos : Nat) (cs : List Char)
      (m : Nat × Nat × α), m ∈ scanAux tryM fuel prev pos cs →
      pos ≤ m.1 ∧ m.1 + m.2.1 ≤ pos + cs.length := by
  intro fuel
  induction fuel with
  | zero => intro prev pos cs m hm; simp [scanAux] at hm
  | succ fuel ih =>
    intro prev pos cs m hm
    cases cs with
    | nil => simp [scanAux] at hm
    | cons c rest =>
      rw [scanAux] at hm
      cases htry : tryM prev (c :: rest) with
      | none =>
        rw [htry] at hm
        have h1 := ih (some c) (pos + 1) rest m hm
        simp only [List.length_cons]
        omega
      | some p =>
        obtain ⟨len, a⟩ := p
        rw [htry] at hm
        have hlen := hb prev (c :: rest) len a htry
        by_cases hl : len = 0
        · subst hl
          simp only [if_true, reduceIte, List.mem_cons] at hm
          rcases hm with rfl | hm
          · simp
          · have h1 := ih (some c) (pos + 1) rest m hm
            simp only [List.length_cons]
            omega
        · simp only [hl, if_false, reduceIte, List.mem_cons] at hm
          rcases hm with rfl | hm
          · simpa using hlen
          · have h1 := ih ((c :: rest)[len - 1]?) (pos + len) ((c :: rest).drop len) m hm
            rw [List.length_drop] at h1
            simp only [List.length_cons] at h1 hlen ⊢
            omega

/-- Specialization of `scanAux_spans` to a whole-text scan. -/
lemma scanText_spans {α : Type} (tryM : Option Char → List Char → Option (Nat × α))
    (hb : ∀ prev cs len a, tryM prev cs = some (len, a) → len ≤ cs.length)
    (text : List Char) (m : Nat × Nat × α) (hm : m ∈ scanText tryM text) :
    m.1 + m.2.1 ≤ text.length :=
  ((scanAux_spans tryM hb (text.length + 1) none 0 text m hm).2).trans_eq (Nat.zero_add _)

lemma occursAtB_le (text : List Char) (j : Nat) (needle : List Char)
    (h : occursAtB text j needle = true) : j + needle.length ≤ text.length := by
  unfold occursAtB at h
  simp only [Bool.and_eq_true, decide_eq_true_eq] at h
  exact h.1

/-- A successful `findAux` search starts no earlier than requested and
lands on a genuine occurrence. -/
lemma findAux_some_spec (text needle : List Char) :
    ∀ (fuel i j : Nat), findAux text needle fuel i = some j →
      i ≤ j ∧ occursAtB text j needle = true := by
  intro fuel
  induction fuel with
  | zero => intro i j h; simp [findAux] at h
  | succ fuel ih =>
    intro i j h
    rw [findAux] at h
    by_cases hc : occursAtB text i needle = true
    · simp only [hc, if_true, reduceIte, Option.some.injEq] at h
      exact h ▸ ⟨Nat.le_refl i, hc⟩
    · simp only [hc, if_false, reduceIte] at h
      have h1 := ih (i + 1) j h
      exact ⟨by omega, h1.2⟩

/-- `findAux` succeeds whenever an occurrence exists within its fuel. -/
lemma findAux_complete (text needle : List Char) :
    ∀ (fuel i j : Nat), occursAtB text j needle = true → i ≤ j → j < i + fuel →
      ∃ k, findAux text needle fuel i = some k := by
  intro fuel
  induction fuel with
  | zero => intro i j _ hij hlt; omega
  | succ fuel ih =>
    intro i j h hij hlt
    rw [findAux]
    by_cases hc : occursAtB text i needle = true
    · exact ⟨i, by simp [hc]⟩
    · have hne : i ≠ j := fun e => hc (e ▸ h)
      obtain ⟨k, hk⟩ := ih (i + 1) j h (by omega) (by omega)
      exact ⟨k, by simp [hc, hk]⟩

/-- If `needle` occurs in `text` at or after `start`, then Python
`text.find(needle, start)` returns a non-negative index of a genuine
occurrence at or after `start`. -/
lemma pyFind_spec (text needle : List Char) (start j : Nat)
    (hocc : occursAtB text j needle = true) (hsj : start ≤ j) :
    ∃ k : Nat, pyFind text needle start = (k : Int) ∧ start ≤ k
      ∧ k + needle.length ≤ text.length := by
  have hjlen : j + needle.length ≤ text.length := occursAtB_le text j needle hocc
  obtain ⟨k, hk⟩ := findAux_complete text needle (text.length + 1 - start) start j hocc hsj
    (by omega)
  have hspec := findAux_some_spec text needle _ start k hk
  exact ⟨k, by unfold pyFind; rw [hk], hspec.1, occursAtB_le text k needle hspec.2⟩

/-- The tokenization-capability contract assumed for span validity: the
returned sentences occur in the text, in order and without overlap. -/
def sentencesOrdered (text : List Char) : Nat → List (List Char) → Prop
  | _, [] => True
  | pos, s :: ss =>
    ∃ i, pos ≤ i ∧ occursAtB text i s = true ∧ sentencesOrdered text (i + s.length) ss

/-- Under the ordered-occurrence contract, every long-sentence finding
carries a valid span of the original text: the running cursor never
overtakes the true position of the next sentence, so `text.find` always
succeeds at or after the cursor. -/
lemma sentLenAux_spans (text : List Char) :
    ∀ (sents : List (List Char)) (cur pos : Nat), cur ≤ pos →
      sentencesOrdered text pos sents →
      ∀ sug ∈ sentLenAux text cur sents,
        0 ≤ sug.offset ∧ sug.offset.toNat + sug.length ≤ text.length := by
  intro sents
  induction sents with
  | nil => intro cur pos _ _ sug hsug; simp [sentLenAux] at hsug
  | cons s ss ih =>
    intro cur pos hcp hord sug hsug
    simp only [sentencesOrdered] at hord
    obtain ⟨i, hpi, hocc, hrest⟩ := hord
    rw [sentLenAux] at hsug
    by_cases hwc : 30 < (pySplitWs s).length
    · simp only [hwc, if_true, reduceIte, List.mem_cons] at hsug
      rcases hsug with rfl | hsug
      · obtain ⟨k, hfind, hsk, hk⟩ := pyFind_spec text s cur i hocc (by omega)
        unfold mkLongSentence
        refine ⟨?_, ?_⟩
        · simp [hfind]
        · simp only [hfind, Int.toNat_ofNat]
          exact hk
      · exact ih (cur + s.length) (i + s.length) (by omega) hrest sug hsug
    · simp only [hwc, if_false, reduceIte] at hsug
      exact ih (cur + s.length) (i + s.length) (by omega) hrest sug hsug

/-- C6.  Under the capability contracts — grammar matches carry valid
spans, and the tokenizer returns the text's sentences in order — every
finding (grammar or style) in the `AnalysisResult` has a non-negative
offset and `offset + length ≤ text.length`; in particular this holds for
the long-sentence findings located by `text.find` from a running cursor. -/
theorem claim_C6_span_validity (text : List Char) (ms : List RawMatch)
    (sents : List (List Char)) (rm : ReadabilityMetrics)
    (hg : ∀ m ∈ ms, m.offset + m.errorLength ≤ text.length)
    (hs : sentencesOrdered text 0 sents) :
    (∀ i ∈ (analyze text ms sents rm).grammar_issues, i.offset + i.length ≤ text.length)
      ∧ (∀ s ∈ (analyze text ms sents rm).style_suggestions,
          0 ≤ s.offset ∧ s.offset.toNat + s.length ≤ text.length) := by
  constructor
  · intro i hi
    obtain ⟨m, hm, rfl⟩ := List.exists_of_mem_map (hi : i ∈ check_grammar text ms)
    exact hg m hm
  · intro s hmem
    have hsplit : s ∈ check_passive_voice text ++ check_wordy_phrases text
        ++ check_sentence_length text sents ++ check_repeated_words text := hmem
    rcases List.mem_append.mp hsplit with h3 | hrep
    · rcases List.mem_append.mp h3 with h2 | hslen
      · rcases List.mem_append.mp h2 with hpv | hwordy
        · rcases List.mem_append.mp hpv with hed | hen
          · obtain ⟨m, hm, rfl⟩ := List.exists_of_mem_map hed
            have hbound := scanText_spans _ (pvTry_len_le "ed".data) text m hm
            exact ⟨by simp [mkPV], by simpa [mkPV] using hbound⟩
          · obtain ⟨m, hm, rfl⟩ := List.exists_of_mem_map hen
            have hbound := scanText_spans _ (pvTry_len_le "en".data) text m hm
            exact ⟨by simp [mkPV], by simpa [mkPV] using hbound⟩
        · obtain ⟨l, hl, hsl⟩ := List.mem_flatten.mp hwordy
          obtain ⟨pr, _, rfl⟩ := List.exists_of_mem_map hl
          obtain ⟨m, hm, rfl⟩ := List.exists_of_mem_map hsl
          have hbound := scanText_spans _ (wordyTry_len_le pr.1) text m hm
          exact ⟨by simp [mkWordy], by simpa [mkWordy] using hbound⟩
      · exact sentLenAux_spans text sents 0 0 (Nat.le_refl 0) hs s hslen
    · obtain ⟨m, hm, hsome⟩ := List.mem_filterMap.mp hrep
      have hbound := scanText_spans _ repTry_len_le text m hm
      split at hsome
      · exact absurd hsome (by simp)
      · have hse : mkRep text m = s := Option.some.inj hsome
        subst hse
        exact ⟨by simp [mkRep], by simpa [mkRep] using hbound⟩

/-- Sample text for the span-validity witness. -/
def sampleText : List Char := "It is used now.".data

/-- Sample grammar-capability response on `sampleText`. -/
def sampleMs : List RawMatch :=
  [{ message := "m", ruleId := "r", category := "GRAMMAR", offset := 0,
     errorLength := 2, replacements := ["They"] }]

/-- Sample tokenizer response on `sampleText`. -/
def sampleSents : List (List Char) := ["It is used now.".data]

/-- Witness for C6 at a concrete text with one grammar match, one
sentence, and one passive-voice style finding. -/
theorem claim_C6_span_validity_witness :
    (∀ m ∈ sampleMs, m.offset + m.errorLength ≤ sampleText.length)
      ∧ sentencesOrdered sampleText 0 sampleSents
      ∧ ((∀ i ∈ (analyze sampleText sampleMs sampleSents sampleMetrics65).grammar_issues,
            i.offset + i.length ≤ sampleText.length)
          ∧ (∀ s ∈ (analyze sampleText sampleMs sampleSents sampleMetrics65).style_suggestions,
              0 ≤ s.offset ∧ s.offset.toNat + s.length ≤ sampleText.length)) := by
  have hg : ∀ m ∈ sampleMs, m.offset + m.errorLength ≤ sampleText.length := by decide
  have hs : sentencesOrdered sampleText 0 sampleSents := by
    simp only [sampleSents, sentencesOrdered]
    exact ⟨0, Nat.le_refl 0, by decide, trivial⟩
  exact ⟨hg, hs, claim_C6_span_validity sampleText sampleMs sampleSents sampleMetrics65 hg hs⟩

/-- C10.  Every finding of the passive-voice, wordy-phrase and
repeated-word detectors has `original` equal to the slice of the input
text at `[offset, offset + length)` (the long-sentence detector is the
only one that truncates `original`). -/
theorem claim_C10_original_matches_span (text : List Char) (s : StyleSuggestion)
    (hmem : s ∈ check_passive_voice text ++ check_wordy_phrases text
      ++ check_repeated_words text) :
    0 ≤ s.offset
      ∧ s.original = pySlice text s.offset.toNat (s.offset.toNat + s.length) := by
  rcases List.mem_append.mp hmem with h2 | hrep
  · rcases List.mem_append.mp h2 with hpv | hwordy
    · rcases List.mem_append.mp hpv with hed | hen
      · obtain ⟨m, _, rfl⟩ := List.exists_of_mem_map hed
        exact ⟨by simp [mkPV], by simp [mkPV]⟩
      · obtain ⟨m, _, rfl⟩ := List.exists_of_mem_map hen
        exact ⟨by simp [mkPV], by simp [mkPV]⟩
    · obtain ⟨l, hl, hsl⟩ := List.mem_flatten.mp hwordy
      obtain ⟨pr, _, rfl⟩ := List.exists_of_mem_map hl
      obtain ⟨m, _, rfl⟩ := List.exists_of_mem_map hsl
      exact ⟨by simp [mkWordy], by simp [mkWordy]⟩
  · obtain ⟨m, _, hsome⟩ := List.mem_filterMap.mp hrep
    split at hsome
    · exact absurd hsome (by simp)
    · have hse : mkRep text m = s := Option.some.inj hsome
      subst hse
      exact ⟨by simp [mkRep], by simp [mkRep]⟩

/-- The passive-voice finding of `sampleText`, for the C10 witness. -/
def sampleFinding : StyleSuggestion := mkPV sampleText (3, 7, ())

/-- Witness for C10 at the concrete passive-voice finding of
"It is used now.". -/
theorem claim_C10_original_matches_span_witness :
    sampleFinding ∈ check_passive_voice sampleText ++ check_wordy_phrases sampleText
        ++ check_repeated_words sampleText
      ∧ (0 ≤ sampleFinding.offset
          ∧ sampleFinding.original = pySlice sampleText sampleFinding.offset.toNat
              (sampleFinding.offset.toNat + sampleFinding.length)) :=
  ⟨by decide, claim_C10_original_matches_span sampleText sampleFinding (by decide)⟩
